import Mathlib

/-!
Shallow embedding of the archetype ECS core of `fourmisse-arena`
(`src/ecs/{component,archetype,entity}.rs` and `src/ecs/mod.rs`).

Conventions of the embedding:
* Rust `usize` values (entity ids, component ids, archetype ids, row and
  column indices) are `Nat`; no arithmetic here can overflow in practice and
  the code never relies on wrap-around.
* Component types (`TypeId` in Rust) are abstract tokens represented by
  `Nat`; component values are represented by a `Nat` payload tagged with the
  token of their type (`BoxAny`, standing for `Box<dyn Any>`), so that the
  checked downcast of `Archetype::component` is observable.
* An operation that can `panic!` or index out of bounds is embedded with an
  `Option` (or `BindResult`) result; `none` / `.fatal` means the Rust code
  panics at that point.
* `HashMap` / `FxHashMap` values are association lists with first-insertion
  key order; `insert` overwrites the value of an existing key in place, which
  matches the map semantics of the source.
-/

/-- Association-list lookup, the embedding of `HashMap::get`. -/
def lookupA : List (Nat × Nat) → Nat → Option Nat
  | [], _ => none
  | p :: rest, k => if p.1 = k then some p.2 else lookupA rest k

/-- Association-list insert, the embedding of `HashMap::insert`: overwrites
the value of an existing key, otherwise appends the new binding. -/
def insertA : List (Nat × Nat) → Nat → Nat → List (Nat × Nat)
  | [], k, v => [(k, v)]
  | p :: rest, k, v => if p.1 = k then (k, v) :: rest else p :: insertA rest k v

/-- Embedding of `Iterator::position`: index of the first element satisfying
the predicate. -/
def listPosition {α : Type} (p : α → Bool) : List α → Option Nat
  | [] => none
  | x :: xs => if p x then some 0 else (listPosition p xs).map (· + 1)

/-- Embedding of `Box<dyn Any>`: a value tagged with the token of its type. -/
structure BoxAny where
  ty : Nat
  val : Nat
  deriving DecidableEq, Repr, Inhabited

/-- Record kept per live entity (`src/ecs/entity.rs`, `EntityInfo`). -/
structure EntityInfo where
  archetype_id : Nat
  row_index : Nat
  deriving DecidableEq, Repr, Inhabited

/-- Embedding of `xor_signature` (`src/ecs/archetype.rs`): removes the
component id if present, otherwise inserts it at the first position whose
element is greater, otherwise appends it. -/
def xor_signature (signature : List Nat) (component_id : Nat) : List Nat :=
  match listPosition (fun e => e = component_id) signature with
  | some i => signature.eraseIdx i
  | none =>
    match listPosition (fun e => component_id < e) signature with
    | some i => signature.insertIdx i component_id
    | none => signature ++ [component_id]

/-- Embedding of `Archetype` (`src/ecs/archetype.rs`). The graph fields
(`id`, `signature`, `edges`) are translated from the source. The storage
fields are modelled from the spec (see `Archetype.push_row`): `columns` is
one growable column per signature entry and `entity_ids` maps row index to
entity id, the `row_entities` list of the spec. -/
structure Archetype where
  id : Nat := 0
  signature : List Nat := []
  columns : List (List BoxAny) := []
  entity_ids : List Nat := []
  edges : List (Nat × Nat) := []
  deriving DecidableEq, Repr, Inhabited

/-- Embedding of `Archetype::next_archetype`: follows the edge of the
archetype graph labelled by the component id. -/
def Archetype.next_archetype (a : Archetype) (component_id : Nat) : Option Nat :=
  lookupA a.edges component_id

/-- Embedding of `Archetype::add_edge`. -/
def Archetype.add_edge (a : Archetype) (component_id dest_archetype : Nat) : Archetype :=
  { a with edges := insertA a.edges component_id dest_archetype }

/-- Modelled from the spec: the storage half of `Archetype` used by
`EntityHandler` is absent from the sources (the checked-in `archetype.rs` is
an earlier snapshot without `entity_ids` and with a single-argument
`push_row`). Per spec section 4.3, `push_row(entity_id, row)` appends one slot
to every column and to `row_entities`, and returns the new row's index,
which equals the old length. -/
def Archetype.push_row (a : Archetype) (entity : Nat) (row : List BoxAny) : Nat × Archetype :=
  (a.entity_ids.length,
   { a with
      columns := (a.columns.zip row).map (fun p => p.1 ++ [p.2]),
      entity_ids := a.entity_ids ++ [entity] })

/-- Modelled from the spec: `remove_row(row_index)` is absent from the
sources in the form `EntityHandler` calls it. Per spec section 4.3 it removes
the row in place, shifting every subsequent row down by one, and returns the
removed boxed values together with the ordered list of entity ids whose row
index decreased by one. Rust's `Vec::remove` panics when the index is out of
bounds, hence the `Option`. -/
def Archetype.remove_row (a : Archetype) (row_index : Nat) :
    Option (List BoxAny × List Nat × Archetype) :=
  if row_index < a.entity_ids.length then
    some (a.columns.map (fun col => col.getD row_index default),
          a.entity_ids.drop (row_index + 1),
          { a with
             columns := a.columns.map (fun col => col.eraseIdx row_index),
             entity_ids := a.entity_ids.eraseIdx row_index })
  else none

/-- Embedding of `Archetype::has_component`. -/
def Archetype.hasComponentId (a : Archetype) (component_id : Nat) : Bool :=
  a.signature.contains component_id

/-- Embedding of `Archetype::component`: reads `components[column][row]` and
downcasts it; an out-of-bounds index or a failing downcast panics (`none`).
A successful call returns the stored payload. -/
def Archetype.component (a : Archetype) (t column row : Nat) : Option Nat :=
  match a.columns[column]?.bind (fun col => col[row]?) with
  | some b => if b.ty = t then some b.val else none
  | none => none

/-- Embedding of `ArchetypeRegister` (`src/ecs/archetype.rs`): the arena of
every archetype ever created, indexed by archetype id. -/
structure ArchetypeRegister where
  archetypes : List Archetype
  deriving DecidableEq, Repr

/-- Embedding of `ArchetypeRegister::default`: only the unit archetype
(empty signature, id 0) exists after initialization. -/
def ArchetypeRegister.init : ArchetypeRegister :=
  ⟨[{ id := 0, signature := [] }]⟩

instance : Inhabited ArchetypeRegister := ⟨ArchetypeRegister.init⟩

/-- Embedding of `ArchetypeRegister::extend_archetype`: returns the id of the
archetype obtained from `src` by xoring `component_id` into its signature,
creating it (with empty storage and a symmetric edge pair) if the edge does
not exist yet. `self.get(src)` panics when `src` is out of bounds (`none`). -/
def ArchetypeRegister.extend_archetype (r : ArchetypeRegister) (src_archetype_id component_id : Nat) :
    Option (Nat × ArchetypeRegister) :=
  match r.archetypes[src_archetype_id]? with
  | none => none
  | some src_archetype =>
    match src_archetype.next_archetype component_id with
    | some dest_archetype_id => some (dest_archetype_id, r)
    | none =>
      let id := r.archetypes.length
      let signature := xor_signature src_archetype.signature component_id
      let dest_archetype : Archetype :=
        { id := id, signature := signature,
          columns := signature.map (fun _ => []), entity_ids := [], edges := [] }
      let dest_archetype := dest_archetype.add_edge component_id src_archetype_id
      let src_archetype := src_archetype.add_edge component_id id
      some (id, ⟨(r.archetypes.set src_archetype_id src_archetype) ++ [dest_archetype]⟩)

/-- Embedding of the walk inside `ArchetypeRegister::archetype_id_from_signature`:
from `current`, follow one edge per component id of the signature. -/
def ArchetypeRegister.walk_from (r : ArchetypeRegister) (current : Nat) : List Nat → Option Nat
  | [] => some current
  | component_id :: rest =>
    match r.archetypes[current]?.bind (fun a => a.next_archetype component_id) with
    | some next => r.walk_from next rest
    | none => none

/-- Embedding of `ArchetypeRegister::archetype_id_from_signature`: walks from
the unit archetype following one edge per component id of the signature. -/
def ArchetypeRegister.archetype_id_from_signature (r : ArchetypeRegister) (signature : List Nat) :
    Option Nat :=
  r.walk_from 0 signature

/-- Embedding of `ComponentsRegister` (`src/ecs/component.rs`): assigns a
small integer id to each distinct component type token on first use. -/
structure ComponentsRegister where
  ids : List (Nat × Nat)
  deriving DecidableEq, Repr

/-- Embedding of `ComponentsRegister::try_component_id`. -/
def ComponentsRegister.try_component_id (r : ComponentsRegister) (t : Nat) : Option Nat :=
  lookupA r.ids t

/-- Embedding of `ComponentsRegister::register_component`: the new id is the
current size of the map. -/
def ComponentsRegister.register_component (r : ComponentsRegister) (t : Nat) :
    Nat × ComponentsRegister :=
  (r.ids.length, ⟨r.ids ++ [(t, r.ids.length)]⟩)

/-- Embedding of `ComponentsRegister::component_id`: returns the existing id
or registers the type. -/
def ComponentsRegister.component_id (r : ComponentsRegister) (t : Nat) :
    Nat × ComponentsRegister :=
  match lookupA r.ids t with
  | some i => (i, r)
  | none => r.register_component t

/-- Embedding of `EntityHandler` (`src/ecs/mod.rs`). `entities` is the next
entity id; `entity_infos` is the `Vec<EntityInfo>` of the source (note: a
vector, not a map); `component_archetypes` maps a component id to the
archetypes containing it together with the column index in each. -/
structure EntityHandler where
  entities : Nat := 0
  entity_infos : List EntityInfo := []
  archetypes : ArchetypeRegister := ArchetypeRegister.init
  components : ComponentsRegister := ⟨[]⟩
  component_archetypes : List (List (Nat × Nat)) := []
  deriving DecidableEq, Repr

/-- Embedding of `EntityHandler::default()`. -/
def EntityHandler.init : EntityHandler := {}

/-- Embedding of `EntityHandler::new_entity_id`: post-increments the counter. -/
def EntityHandler.new_entity_id (h : EntityHandler) : Nat × EntityHandler :=
  (h.entities, { h with entities := h.entities + 1 })

/-- Embedding of `EntityHandler::spawn_entity`: allocates the next id and
pushes an empty row into the unit archetype. -/
def EntityHandler.spawn_entity (h : EntityHandler) : Nat × EntityHandler :=
  let (entity, h) := h.new_entity_id
  let unit_archetype := h.archetypes.archetypes.getD 0 default
  let (row_index, unit_archetype) := unit_archetype.push_row entity []
  (entity,
   { h with
      archetypes := ⟨h.archetypes.archetypes.set 0 unit_archetype⟩,
      entity_infos := h.entity_infos ++ [⟨unit_archetype.id, row_index⟩] })

/-- Embedding of `EntityHandler::delete_entity`: reads the record at index
`entity` of the `entity_infos` vector (panic when out of bounds), removes the
row from its archetype discarding `remove_row`'s result, and removes the
record with `Vec::remove` (which shifts all later records down). -/
def EntityHandler.delete_entity (h : EntityHandler) (entity : Nat) : Option EntityHandler :=
  match h.entity_infos[entity]? with
  | none => none
  | some entity_info =>
    match h.archetypes.archetypes[entity_info.archetype_id]? with
    | none => none
    | some arch =>
      match arch.remove_row entity_info.row_index with
      | none => none
      | some (_, _, arch) =>
        some { h with
                archetypes := ⟨h.archetypes.archetypes.set entity_info.archetype_id arch⟩,
                entity_infos := h.entity_infos.eraseIdx entity }

/-- Embedding of `EntityHandler::has_component`: indexes `entity_infos` first
(panic when out of bounds), then checks membership of the entity's archetype
in the component's archetype map. Indexing `component_archetypes[id]` also
panics when out of bounds. -/
def EntityHandler.has_component (h : EntityHandler) (t entity : Nat) : Option Bool :=
  match h.entity_infos[entity]? with
  | none => none
  | some entity_info =>
    match h.components.try_component_id t with
    | some id =>
      match h.component_archetypes[id]? with
      | none => none
      | some m => some (lookupA m entity_info.archetype_id).isSome
    | none => some false

/-- Embedding of `EntityHandler::get_component_column` (non-panicking `get`s). -/
def EntityHandler.get_component_column (h : EntityHandler) (component_id archetype_id : Nat) :
    Option Nat :=
  h.component_archetypes[component_id]?.bind (fun m => lookupA m archetype_id)

/-- Embedding of `EntityHandler::component`: the outer `Option` is the panic
channel, the inner one is the source's `Option<&ComponentType>`. When the
type was never registered the function returns `None` without touching
`entity_infos`. -/
def EntityHandler.component (h : EntityHandler) (t entity : Nat) : Option (Option Nat) :=
  match h.components.try_component_id t with
  | none => some none
  | some component_id =>
    match h.entity_infos[entity]? with
    | none => none
    | some entity_info =>
      match h.has_component t entity with
      | none => none
      | some false => some none
      | some true =>
        match h.get_component_column component_id entity_info.archetype_id with
        | none => some none
        | some column_index =>
          match h.archetypes.archetypes[entity_info.archetype_id]? with
          | none => none
          | some arch =>
            match arch.component t column_index entity_info.row_index with
            | none => none
            | some v => some (some v)

/-- Result of `EntityHandler::bind_component`: `ok` is normal completion,
`alreadyBound` is the explicit `panic!` on a duplicate bind (carrying the
handler state at the moment of the panic), `fatal` is any other panic
(out-of-bounds index, failed unwrap). -/
inductive BindResult where
  | ok (h : EntityHandler)
  | alreadyBound (h : EntityHandler)
  | fatal
  deriving DecidableEq, Repr

/-- Embedding of the patch loop of `bind_component`:
`for entity in entities_to_update { self.entity_infos[*entity].row_index -= 1 }`.
Indexing out of bounds or decrementing a zero row index (usize underflow)
panics. -/
def patch_infos (infos : List EntityInfo) : List Nat → Option (List EntityInfo)
  | [] => some infos
  | u :: rest =>
    match infos[u]? with
    | none => none
    | some info =>
      if info.row_index = 0 then none
      else patch_infos (infos.set u ⟨info.archetype_id, info.row_index - 1⟩) rest

/-- Embedding of the index-registration loop of `bind_component`:
`for (i, component) in signature.iter().enumerate() { self.component_archetypes[*component].insert(new_archetype, i) }`. -/
def register_component_columns (ca : List (List (Nat × Nat))) :
    List Nat → Nat → Nat → Option (List (List (Nat × Nat)))
  | [], _, _ => some ca
  | comp :: rest, new_archetype, i =>
    match ca[comp]? with
    | none => none
    | some m =>
      register_component_columns (ca.set comp (insertA m new_archetype i)) rest new_archetype (i + 1)

/-- Embedding of the body of `EntityHandler::bind_component` after the
duplicate check (`src/ecs/mod.rs`, lines 106-130), statement by statement:
record read, id registration, archetype extension, column position, row
removal from the source archetype, insertion of the boxed value, patching of
the shifted records, move of the entity's own record, and registration of the
destination's columns in the component index (which first pushes one fresh
empty map). Every `none` is a panic of the source (out-of-bounds index,
failed `unwrap`, or `usize` underflow). -/
def EntityHandler.bind_component_core (h : EntityHandler) (t entity v : Nat) :
    Option EntityHandler :=
  h.entity_infos[entity]?.bind (fun entity_info =>
    let src_archetype_id := entity_info.archetype_id
    let pr := h.components.component_id t
    let component_id := pr.1
    let comps := pr.2
    (h.archetypes.extend_archetype src_archetype_id component_id).bind (fun exr =>
      let new_archetype := exr.1
      let reg := exr.2
      (reg.archetypes[new_archetype]?.bind
          (fun a => listPosition (fun c => c = component_id) a.signature)).bind
        (fun component_column =>
        reg.archetypes[src_archetype_id]?.bind (fun src_arch =>
          (src_arch.remove_row entity_info.row_index).bind (fun rem =>
            let components_row := rem.1
            let entities_to_update := rem.2.1
            let src_arch2 := rem.2.2
            if component_column ≤ components_row.length then
              let components_row2 := components_row.insertIdx component_column ⟨t, v⟩
              (patch_infos h.entity_infos entities_to_update).bind (fun infos =>
                let reg2 : ArchetypeRegister := ⟨reg.archetypes.set src_archetype_id src_arch2⟩
                reg2.archetypes[new_archetype]?.bind (fun dest =>
                  let pu := dest.push_row entity components_row2
                  let row_index := pu.1
                  let dest2 := pu.2
                  let reg3 : ArchetypeRegister := ⟨reg2.archetypes.set new_archetype dest2⟩
                  let infos2 := infos.set entity ⟨new_archetype, row_index⟩
                  let ca := h.component_archetypes ++ [[]]
                  (register_component_columns ca dest2.signature new_archetype 0).map
                    (fun ca2 =>
                      { entities := h.entities, entity_infos := infos2,
                        archetypes := reg3, components := comps,
                        component_archetypes := ca2 })))
            else none)))))

/-- Embedding of `EntityHandler::bind_component` (`src/ecs/mod.rs`, lines
100-130): the duplicate check first — `panic!` (`alreadyBound`, carrying the
untouched handler state, since nothing has been mutated yet) when the entity
already has the component — then the body. -/
def EntityHandler.bind_component (h : EntityHandler) (t entity v : Nat) : BindResult :=
  match h.has_component t entity with
  | none => .fatal
  | some true => .alreadyBound h
  | some false =>
    match h.bind_component_core t entity v with
    | some g => .ok g
    | none => .fatal

/-- Embedding of `EntityHandler::component_archetypes(component_id)`: the keys
of the component's archetype map, or the empty set when the component id has
no entry (non-panicking `get`). -/
def EntityHandler.component_archetypes_of (h : EntityHandler) (component_id : Nat) : List Nat :=
  match h.component_archetypes[component_id]? with
  | some m => m.map (fun p => p.1)
  | none => []

/-- Embedding of `EntityHandler::query_archetypes`: intersects, over the
component ids of the query, the sets of archetype ids containing each
component. The `unwrap` on the first element panics on an empty query. -/
def EntityHandler.query_archetypes (h : EntityHandler) (q : List Nat) : Option (List Nat) :=
  match q with
  | [] => none
  | c :: rest =>
    some (rest.foldl
      (fun result component =>
        result.filter (fun a => (h.component_archetypes_of component).contains a))
      (h.component_archetypes_of c))

/-- Embedding of `EntityHandler::query`: concatenates the `entity_ids` lists
of the archetypes matching the query. Indexing a matching archetype out of
bounds panics. -/
def EntityHandler.query (h : EntityHandler) (q : List Nat) : Option (List Nat) :=
  match h.query_archetypes q with
  | none => none
  | some archs =>
    (archs.mapM (fun a => h.archetypes.archetypes[a]?)).map
      (fun l => (l.map (fun ar => ar.entity_ids)).flatten)

/-- Operation of the public `EntityHandler` surface, for stating properties
about arbitrary finite sequences of calls. -/
inductive Op where
  | spawn
  | delete (entity : Nat)
  | bind (t entity v : Nat)
  deriving DecidableEq, Repr

/-- Runs one operation; `none` when the operation panics (a `bind` that
signals the already-bound condition also ends the run). -/
def run_op (h : EntityHandler) : Op → Option EntityHandler
  | .spawn => some (h.spawn_entity).2
  | .delete entity => h.delete_entity entity
  | .bind t entity v =>
    match h.bind_component t entity v with
    | .ok h => some h
    | _ => none

/-- Runs a finite sequence of operations from a given state. -/
def run_ops (h : EntityHandler) : List Op → Option EntityHandler
  | [] => some h
  | op :: rest => (run_op h op).bind (fun h => run_ops h rest)

/-- Concrete register used to refute the lookup/extend-agreement claim:
extend the unit archetype by component 5, then extend the result by
component 3. -/
def c2_register : ArchetypeRegister :=
  match ArchetypeRegister.init.extend_archetype 0 5 with
  | some (a1, r1) =>
    match r1.extend_archetype a1 3 with
    | some (_, r2) => r2
    | none => ArchetypeRegister.init
  | none => ArchetypeRegister.init

/-- C2, counterexample: after `extend(0, 5)` creates archetype 1 and
`extend(1, 3)` creates archetype 2 with signature `[3, 5]`, the signature
lookup walk fails: the unit archetype has no edge for component 3, so
`archetype_id_from_signature [3, 5]` returns `none` instead of `some 2` —
`lookup` does not find every archetype ever created. -/
theorem claim2_lookup_misses_created_archetype :
    c2_register.archetypes[2]?.map (fun a => a.signature) = some [3, 5] ∧
    c2_register.archetype_id_from_signature [3, 5] = none := by
  decide

/-- C1 (code bug), evaluation at the failing input: after
`spawn; spawn; delete 0`, entity 1 is still live, yet `entity_infos` has
shrunk to a single record `{archetype 0, row 1}`: looking up entity 1's
record is out of bounds (fatal), and the surviving record names row 1 of the
unit archetype although that archetype now stores exactly one row, whose
entity id is 1 — `delete_entity` discarded the row-shift patch returned by
`remove_row` and shifted the whole id-indexed record vector with
`Vec::remove`. -/
theorem claim1_delete_entity_breaks_alignment :
    (run_ops EntityHandler.init [.spawn, .spawn, .delete 0]).map
        (fun h => h.entity_infos) = some [⟨0, 1⟩] ∧
    (run_ops EntityHandler.init [.spawn, .spawn, .delete 0]).bind
        (fun h => h.entity_infos[1]?) = none ∧
    (run_ops EntityHandler.init [.spawn, .spawn, .delete 0]).bind
        (fun h => h.archetypes.archetypes[0]?.map (fun a => a.entity_ids)) =
      some [1] := by
  decide

/-- C3 (code bug), evaluation at the failing input: with type tokens 10
(`usize`, component id 0) and 20 (`f32`, component id 1), run
`spawn; spawn; bind usize to 1; delete 0; spawn; bind f32 to 1`. The delete
shifted the record vector, so the final bind read entity 2's record as
entity 1's. Afterwards `query({usize})` returns `[1]` although entity 1's
stored record names the f32-archetype (signature `[1]`, which does not
contain component 0), and `query({usize, f32})` returns `[]` although both
binds on entity 1 completed without error. -/
theorem claim3_query_wrong_after_delete :
    (run_ops EntityHandler.init
        [.spawn, .spawn, .bind 10 1 7, .delete 0, .spawn, .bind 20 1 9]).bind
        (fun h => h.query [0]) = some [1] ∧
    (run_ops EntityHandler.init
        [.spawn, .spawn, .bind 10 1 7, .delete 0, .spawn, .bind 20 1 9]).bind
        (fun h => h.entity_infos[1]?.bind
          (fun info => h.archetypes.archetypes[info.archetype_id]?.map
            (fun a => a.signature))) = some [1] ∧
    (run_ops EntityHandler.init
        [.spawn, .spawn, .bind 10 1 7, .delete 0, .spawn, .bind 20 1 9]).bind
        (fun h => h.query [0, 1]) = some [] := by
  decide

/-- C4 (code bug), evaluation at the failing input: with type token 10
(`usize`), after `spawn; spawn; spawn; bind usize to 1 with value 7` the
round-trip holds (`component` on entity 1 returns 7), but after the
subsequent `delete 1`, `has_component::<usize>(2)` is fatal (record lookup
out of bounds) although entity 2 is live and carries no component at all —
the claim requires it to be `false`. -/
theorem claim4_crosstalk_after_delete :
    (run_ops EntityHandler.init [.spawn, .spawn, .spawn, .bind 10 1 7]).bind
        (fun h => h.component 10 1) = some (some 7) ∧
    (run_ops EntityHandler.init [.spawn, .spawn, .spawn, .bind 10 1 7, .delete 1]).map
        (fun h => h.has_component 10 2) = some none := by
  decide

/-- C6 (code bug), evaluation at the failing input: after `spawn; delete 0`,
the next spawn indeed returns id 1 (ids are never reused), but
`has_component` on the deleted id 0 then returns `false` instead of being
fatal: the record vector was shifted by the delete, so index 0 now holds the
record of the freshly spawned entity 1 and the operation silently succeeds. -/
theorem claim6_deleted_id_not_fatal :
    (run_ops EntityHandler.init [.spawn, .delete 0]).map
        (fun h => (h.spawn_entity).1) = some 1 ∧
    (run_ops EntityHandler.init [.spawn, .delete 0, .spawn]).map
        (fun h => h.has_component 10 0) = some (some false) := by
  decide

/-- C9 (code bug), evaluation at the failing input: extending the C3 run
with one more `bind usize to 1` makes `query({usize})` yield entity id 1
twice: the id is listed in two distinct archetypes that both contain
component 0, because the corrupted record made an earlier bind move another
entity's row while entity 1's stale row stayed behind. -/
theorem claim9_query_duplicates :
    (run_ops EntityHandler.init
        [.spawn, .spawn, .bind 10 1 7, .delete 0, .spawn, .bind 20 1 9,
         .bind 10 1 11]).bind
        (fun h => h.query [0]) = some [1, 1] := by
  decide

theorem lookupA_insertA_self (m : List (Nat × Nat)) (k v : Nat) :
    lookupA (insertA m k v) k = some v := by
  induction m with
  | nil => simp [insertA, lookupA]
  | cons p rest ih =>
    by_cases hp : p.1 = k
    · simp [insertA, lookupA, hp]
    · simp [insertA, lookupA, hp, ih]

theorem lookupA_insertA_ne (m : List (Nat × Nat)) {k kq : Nat} (v : Nat) (h : kq ≠ k) :
    lookupA (insertA m k v) kq = lookupA m kq := by
  induction m with
  | nil =>
    simp only [insertA, lookupA]
    rw [if_neg (fun hk : k = kq => h hk.symm)]
  | cons p rest ih =>
    by_cases hp : p.1 = k
    · simp only [insertA, if_pos hp, lookupA]
      rw [if_neg (fun hk : k = kq => h hk.symm),
          if_neg (fun hq : p.1 = kq => h (hq ▸ hp))]
    · simp only [insertA, if_neg hp, lookupA]
      by_cases hq : p.1 = kq
      · rw [if_pos hq, if_pos hq]
      · rw [if_neg hq, if_neg hq, ih]

theorem lookupA_append_of_none {m : List (Nat × Nat)} {k : Nat}
    (h : lookupA m k = none) (m2 : List (Nat × Nat)) :
    lookupA (m ++ m2) k = lookupA m2 k := by
  induction m with
  | nil => simp
  | cons p rest ih =>
    by_cases hp : p.1 = k
    · simp [lookupA, hp] at h
    · simp only [lookupA, hp, if_false, List.cons_append] at h ⊢
      simp [lookupA, hp, ih h]

theorem lookupA_mem_snd {m : List (Nat × Nat)} {k v : Nat}
    (h : lookupA m k = some v) : v ∈ m.map Prod.snd := by
  induction m with
  | nil => simp [lookupA] at h
  | cons p rest ih =>
    by_cases hp : p.1 = k
    · simp [lookupA, hp] at h
      simp [h]
    · simp only [lookupA, hp, if_false] at h
      simp [ih h]

theorem listPosition_eq_none {α : Type} {p : α → Bool} {l : List α}
    (h : ∀ y ∈ l, ¬ p y) : listPosition p l = none := by
  induction l with
  | nil => rfl
  | cons x xs ih =>
    have hx : ¬ p x := h x (List.mem_cons_self x xs)
    simp [listPosition, hx, ih (fun y hy => h y (List.mem_cons_of_mem x hy))]

theorem listPosition_eq_some_exists {α : Type} {p : α → Bool} {l : List α} {i : Nat}
    (h : listPosition p l = some i) : ∃ x ∈ l, p x := by
  induction l generalizing i with
  | nil => simp [listPosition] at h
  | cons x xs ih =>
    by_cases hx : p x
    · exact ⟨x, List.mem_cons_self x xs, hx⟩
    · simp only [listPosition, hx, if_false] at h
      cases h1 : listPosition p xs with
      | none => rw [h1] at h; simp at h
      | some j =>
        obtain ⟨y, hy, hpy⟩ := ih h1
        exact ⟨y, List.mem_cons_of_mem x hy, hpy⟩

theorem xor_signature_nil (c : Nat) : xor_signature [] c = [c] := rfl

theorem xor_signature_cons_self (c : Nat) (xs : List Nat) :
    xor_signature (c :: xs) c = xs := by
  simp [xor_signature, listPosition]

theorem xor_signature_of_forall_lt {c : Nat} {l : List Nat} (h : ∀ y ∈ l, c < y) :
    xor_signature l c = c :: l := by
  cases l with
  | nil => rfl
  | cons x xs =>
    have hne : ∀ y ∈ x :: xs, ¬ (decide (y = c)) = true := by
      intro y hy
      simp only [decide_eq_true_eq]
      exact fun hyc => absurd (h y hy) (by simp [hyc])
    have hx : c < x := h x (List.mem_cons_self x xs)
    have hpos : listPosition (fun e => decide (c < e)) (x :: xs) = some 0 := by
      simp [listPosition, hx]
    unfold xor_signature
    rw [listPosition_eq_none hne, hpos]
    simp

theorem xor_signature_append_of_forall_lt {c : Nat} {l : List Nat} (h : ∀ y ∈ l, y < c) :
    xor_signature l c = l ++ [c] := by
  have hne : ∀ y ∈ l, ¬ (decide (y = c)) = true := by
    intro y hy
    simp only [decide_eq_true_eq]
    exact fun hyc => absurd (h y hy) (by simp [hyc])
  have hgt : ∀ y ∈ l, ¬ (decide (c < y)) = true := by
    intro y hy
    simp only [decide_eq_true_eq]
    exact fun hcy => absurd (h y hy) (Nat.lt_asymm hcy)
  simp [xor_signature, listPosition_eq_none hne, listPosition_eq_none hgt]

theorem xor_signature_cons_of_lt {x c : Nat} (xs : List Nat) (h : x < c) :
    xor_signature (x :: xs) c = x :: xor_signature xs c := by
  have hne : ¬ (decide (x = c)) = true := by
    simp only [decide_eq_true_eq]
    exact fun hxc => absurd h (by simp [hxc])
  have hngt : ¬ (decide (c < x)) = true := by
    simp only [decide_eq_true_eq]
    exact fun hcx => absurd h (Nat.lt_asymm hcx)
  simp only [xor_signature, listPosition, hne, if_false, hngt]
  cases h1 : listPosition (fun e => decide (e = c)) xs with
  | some i => simp [List.eraseIdx_cons_succ]
  | none =>
    simp only [Option.map_none']
    cases h2 : listPosition (fun e => decide (c < e)) xs with
    | some j => simp [List.insertIdx_succ_cons]
    | none => simp

theorem mem_xor_signature {l : List Nat} {c b : Nat} (h : List.Sorted (· < ·) l)
    (hb : b ∈ xor_signature l c) : b ∈ l ∨ b = c := by
  induction l with
  | nil =>
    rw [xor_signature_nil] at hb
    simp at hb
    exact Or.inr hb
  | cons x xs ih =>
    rw [List.sorted_cons] at h
    rcases Nat.lt_trichotomy x c with hlt | heq | hgt
    · rw [xor_signature_cons_of_lt xs hlt] at hb
      rcases List.mem_cons.mp hb with hbx | hb2
      · exact Or.inl (by simp [hbx])
      · rcases ih h.2 hb2 with h3 | h3
        · exact Or.inl (List.mem_cons_of_mem x h3)
        · exact Or.inr h3
    · subst heq
      rw [xor_signature_cons_self] at hb
      exact Or.inl (List.mem_cons_of_mem x hb)
    · have : ∀ y ∈ x :: xs, c < y := by
        intro y hy
        rcases List.mem_cons.mp hy with hyx | hy2
        · simp [hyx, hgt]
        · exact Nat.lt_trans hgt (h.1 y hy2)
      rw [xor_signature_of_forall_lt this] at hb
      rcases List.mem_cons.mp hb with hbc | hb2
      · exact Or.inr hbc
      · exact Or.inl hb2

theorem xor_signature_sorted {l : List Nat} (c : Nat) (h : List.Sorted (· < ·) l) :
    List.Sorted (· < ·) (xor_signature l c) := by
  induction l with
  | nil =>
    rw [xor_signature_nil]
    exact List.sorted_singleton c
  | cons x xs ih =>
    rw [List.sorted_cons] at h
    rcases Nat.lt_trichotomy x c with hlt | heq | hgt
    · rw [xor_signature_cons_of_lt xs hlt, List.sorted_cons]
      refine ⟨fun b hb => ?_, ih h.2⟩
      rcases mem_xor_signature h.2 hb with h3 | h3
      · exact h.1 b h3
      · simp [h3, hlt]
    · subst heq
      rw [xor_signature_cons_self]
      exact h.2
    · have hall : ∀ y ∈ x :: xs, c < y := by
        intro y hy
        rcases List.mem_cons.mp hy with hyx | hy2
        · simp [hyx, hgt]
        · exact Nat.lt_trans hgt (h.1 y hy2)
      rw [xor_signature_of_forall_lt hall, List.sorted_cons]
      exact ⟨hall, List.sorted_cons.mpr h⟩

theorem xor_signature_xor_signature {l : List Nat} (c : Nat) (h : List.Sorted (· < ·) l) :
    xor_signature (xor_signature l c) c = l := by
  induction l with
  | nil => rw [xor_signature_nil, xor_signature_cons_self]
  | cons x xs ih =>
    rw [List.sorted_cons] at h
    rcases Nat.lt_trichotomy x c with hlt | heq | hgt
    · rw [xor_signature_cons_of_lt xs hlt, xor_signature_cons_of_lt _ hlt, ih h.2]
    · subst heq
      rw [xor_signature_cons_self,
          xor_signature_of_forall_lt h.1]
    · have hall : ∀ y ∈ x :: xs, c < y := by
        intro y hy
        rcases List.mem_cons.mp hy with hyx | hy2
        · simp [hyx, hgt]
        · exact Nat.lt_trans hgt (h.1 y hy2)
      rw [xor_signature_of_forall_lt hall, xor_signature_cons_self]

/-- C8, confirmed: on a strictly increasing signature, `xor_signature` is an
involution, and each application returns a strictly increasing signature
again (the component id is inserted at its sorted position when absent and
removed when present). -/
theorem claim8_xor_self_inverse (S : List Nat) (c : Nat) (h : List.Sorted (· < ·) S) :
    xor_signature (xor_signature S c) c = S ∧
    List.Sorted (· < ·) (xor_signature S c) :=
  ⟨xor_signature_xor_signature c h, xor_signature_sorted c h⟩

/-- C8, witness: the involution and sortedness evaluated on the concrete
signature `[0, 2, 3]` with component 1. -/
theorem claim8_xor_self_inverse_witness :
    xor_signature (xor_signature [0, 2, 3] 1) 1 = [0, 2, 3] ∧
    List.Sorted (· < ·) (xor_signature [0, 2, 3] 1) :=
  claim8_xor_self_inverse [0, 2, 3] 1 (by decide)

/-- States of a `ComponentsRegister` reachable from the default (empty)
register by any sequence of `component_id` calls. -/
inductive ComponentsRegisterReaches : ComponentsRegister → Prop where
  | base : ComponentsRegisterReaches ⟨[]⟩
  | step (r : ComponentsRegister) (t : Nat) :
      ComponentsRegisterReaches r → ComponentsRegisterReaches (r.component_id t).2

theorem components_register_ids_range {r : ComponentsRegister}
    (h : ComponentsRegisterReaches r) :
    r.ids.map Prod.snd = List.range r.ids.length := by
  induction h with
  | base => rfl
  | step r t hr ih =>
    cases hl : lookupA r.ids t with
    | some i => simpa [ComponentsRegister.component_id, hl] using ih
    | none =>
      simp only [ComponentsRegister.component_id, hl,
        ComponentsRegister.register_component]
      simp [ih, List.range_succ]

/-- C10, confirmed: in every reachable register state the assigned ids are
exactly `0, 1, ..., count-1` in first-seen order (the n-th distinct type
receives id n-1, the size of the map at registration time), and
`component_id` always returns an id below the number of distinct types seen
after the call. -/
theorem claim10_dense_component_ids (r : ComponentsRegister)
    (h : ComponentsRegisterReaches r) :
    r.ids.map Prod.snd = List.range r.ids.length ∧
    ∀ t, (r.component_id t).1 < (r.component_id t).2.ids.length := by
  refine ⟨components_register_ids_range h, fun t => ?_⟩
  cases hl : lookupA r.ids t with
  | some i =>
    have hmem : i ∈ r.ids.map Prod.snd := lookupA_mem_snd hl
    rw [components_register_ids_range h] at hmem
    simpa [ComponentsRegister.component_id, hl] using List.mem_range.mp hmem
  | none =>
    simp [ComponentsRegister.component_id, hl, ComponentsRegister.register_component]

/-- C10, witness: the density property evaluated on the register obtained by
registering tokens 7, 7 and 3 in that order. -/
theorem claim10_dense_component_ids_witness :
    ((((ComponentsRegister.mk []).component_id 7).2.component_id 7).2.component_id 3).2.ids.map
        Prod.snd =
      List.range
        ((((ComponentsRegister.mk []).component_id 7).2.component_id 7).2.component_id 3).2.ids.length ∧
    ∀ t,
      (((((ComponentsRegister.mk []).component_id 7).2.component_id 7).2.component_id 3).2.component_id t).1 <
        (((((ComponentsRegister.mk []).component_id 7).2.component_id 7).2.component_id 3).2.component_id t).2.ids.length :=
  claim10_dense_component_ids _
    (ComponentsRegisterReaches.step _ 3
      (ComponentsRegisterReaches.step _ 7
        (ComponentsRegisterReaches.step _ 7 ComponentsRegisterReaches.base)))

theorem listPosition_lt_length {α : Type} {p : α → Bool} {l : List α} {i : Nat}
    (h : listPosition p l = some i) : i < l.length := by
  induction l generalizing i with
  | nil => simp [listPosition] at h
  | cons x xs ih =>
    simp only [List.length_cons]
    by_cases hx : p x
    · simp [listPosition, hx] at h
      omega
    · simp only [listPosition, hx, if_false] at h
      cases h1 : listPosition p xs with
      | none => rw [h1] at h; simp at h
      | some j =>
        rw [h1] at h
        simp at h
        have h2 := ih h1
        omega

theorem xor_signature_length_ne (l : List Nat) (c : Nat) :
    (xor_signature l c).length ≠ l.length := by
  unfold xor_signature
  cases h1 : listPosition (fun e => decide (e = c)) l with
  | some i =>
    have hi := listPosition_lt_length h1
    simp [List.length_eraseIdx, hi]
    omega
  | none =>
    cases h2 : listPosition (fun e => decide (c < e)) l with
    | some i =>
      have hi := listPosition_lt_length h2
      simp [List.length_insertIdx i l (Nat.le_of_lt hi)]
    | none => simp

theorem next_archetype_add_edge (a : Archetype) (c j k : Nat) :
    (a.add_edge c j).next_archetype k =
      if k = c then some j else a.next_archetype k := by
  by_cases hk : k = c
  · subst hk
    simp [Archetype.add_edge, Archetype.next_archetype, lookupA_insertA_self]
  · simp [Archetype.add_edge, Archetype.next_archetype, lookupA_insertA_ne _ _ hk, hk]

theorem add_edge_id (a : Archetype) (c j : Nat) : (a.add_edge c j).id = a.id := rfl

theorem add_edge_signature (a : Archetype) (c j : Nat) :
    (a.add_edge c j).signature = a.signature := rfl

theorem get?_set_append (l : List Archetype) (src : Nat) (s a : Archetype) (i : Nat) :
    ((l.set src s) ++ [a])[i]? =
      if i = l.length then some a
      else if i = src ∧ src < l.length then some s
      else l[i]? := by
  rw [List.getElem?_append, List.length_set]
  by_cases h1 : i < l.length
  · rw [if_pos h1, List.getElem?_set, if_neg (by omega : ¬ i = l.length)]
    by_cases h2 : src = i
    · subst h2
      rw [if_pos rfl, if_pos h1, if_pos ⟨rfl, h1⟩]
    · rw [if_neg h2, if_neg (fun hc => h2 hc.1.symm)]
  · rw [if_neg h1]
    by_cases h3 : i = l.length
    · subst h3
      simp
    · rw [if_neg h3, if_neg (by rintro ⟨hcc, hlt⟩; exact h1 (by omega))]
      have h4 : i - l.length ≠ 0 := by omega
      have h5 : l[i]? = none := List.getElem?_eq_none (by omega)
      rw [h5]
      cases h6 : i - l.length with
      | zero => exact absurd h6 h4
      | succ k => simp

/-- States of an `ArchetypeRegister` reachable from the initial register
(unit archetype only) by any sequence of `extend_archetype` calls, each from
an archetype id already present (an absent source id makes the call panic,
so it produces no state). -/
inductive ArchetypeRegisterReaches : ArchetypeRegister → Prop where
  | base : ArchetypeRegisterReaches ArchetypeRegister.init
  | step (r : ArchetypeRegister) (src c dest : Nat) (rq : ArchetypeRegister) :
      ArchetypeRegisterReaches r → r.extend_archetype src c = some (dest, rq) →
      ArchetypeRegisterReaches rq

/-- Well-formedness of an archetype register: every stored archetype records
its own index as id and carries a strictly sorted signature, and every edge
is symmetric and connects signatures that differ by exactly the xor of its
component id. -/
def ArchetypeRegister.wf (r : ArchetypeRegister) : Prop :=
  (∀ (i : Nat) (a : Archetype), r.archetypes[i]? = some a →
      a.id = i ∧ List.Sorted (· < ·) a.signature) ∧
  (∀ (i : Nat) (a : Archetype) (c j : Nat),
      r.archetypes[i]? = some a → a.next_archetype c = some j →
      ∃ b : Archetype, r.archetypes[j]? = some b ∧ b.next_archetype c = some i ∧
        b.signature = xor_signature a.signature c)

theorem wf_extend_create {r : ArchetypeRegister} {src c : Nat} {s A B : Archetype}
    (hwf : r.wf) (hs : r.archetypes[src]? = some s)
    (hn : s.next_archetype c = none)
    (hA : A = s.add_edge c r.archetypes.length)
    (hB_id : B.id = r.archetypes.length)
    (hB_sig : B.signature = xor_signature s.signature c)
    (hB_next : ∀ k, B.next_archetype k = if k = c then some src else none) :
    (ArchetypeRegister.mk ((r.archetypes.set src A) ++ [B])).wf := by
  obtain ⟨hwf1, hwf2⟩ := hwf
  obtain ⟨hsid, hssorted⟩ := hwf1 src s hs
  obtain ⟨hlt, -⟩ := List.getElem?_eq_some.mp hs
  have hA_id : A.id = src := by rw [hA, add_edge_id, hsid]
  have hA_sig : A.signature = s.signature := by rw [hA, add_edge_signature]
  have hA_next : ∀ k, A.next_archetype k =
      if k = c then some r.archetypes.length else s.next_archetype k := by
    intro k
    rw [hA, next_archetype_add_edge]
  have hget : ∀ i,
      (ArchetypeRegister.mk ((r.archetypes.set src A) ++ [B])).archetypes[i]? =
        if i = r.archetypes.length then some B
        else if i = src ∧ src < r.archetypes.length then some A
        else r.archetypes[i]? := fun i => get?_set_append _ _ _ _ i
  constructor
  · intro i a ha
    rw [hget i] at ha
    split_ifs at ha with h1 h2
    · obtain rfl : B = a := Option.some.inj ha
      refine ⟨by rw [hB_id, h1], ?_⟩
      rw [hB_sig]
      exact xor_signature_sorted c hssorted
    · obtain rfl : A = a := Option.some.inj ha
      refine ⟨by rw [hA_id, h2.1], ?_⟩
      rw [hA_sig]
      exact hssorted
    · exact hwf1 i a ha
  · intro i a k j ha hedge
    rw [hget i] at ha
    split_ifs at ha with h1 h2
    · obtain rfl : B = a := Option.some.inj ha
      rw [hB_next k] at hedge
      by_cases hk : k = c
      · rw [if_pos hk] at hedge
        obtain rfl : src = j := Option.some.inj hedge
        refine ⟨A, ?_, ?_, ?_⟩
        · rw [hget src, if_neg (by omega : ¬ src = r.archetypes.length),
              if_pos ⟨rfl, hlt⟩]
        · rw [hA_next k, if_pos hk, h1]
        · rw [hA_sig, hB_sig, hk]
          exact (xor_signature_xor_signature c hssorted).symm
      · rw [if_neg hk] at hedge
        exact absurd hedge (by simp)
    · obtain rfl : A = a := Option.some.inj ha
      rw [hA_next k] at hedge
      by_cases hk : k = c
      · rw [if_pos hk] at hedge
        obtain rfl : r.archetypes.length = j := Option.some.inj hedge
        refine ⟨B, ?_, ?_, ?_⟩
        · rw [hget r.archetypes.length, if_pos rfl]
        · rw [hB_next k, if_pos hk, h2.1]
        · rw [hB_sig, hA_sig, hk]
      · rw [if_neg hk] at hedge
        obtain ⟨b0, hb0, hback0, hsig0⟩ := hwf2 src s k j hs hedge
        obtain ⟨hjlt, -⟩ := List.getElem?_eq_some.mp hb0
        by_cases hj : j = src
        · subst hj
          obtain rfl : s = b0 := by
            rw [hs] at hb0
            exact Option.some.inj hb0
          exact absurd (congrArg List.length hsig0).symm
            (xor_signature_length_ne s.signature k)
        · refine ⟨b0, ?_, ?_, ?_⟩
          · rw [hget j, if_neg (by omega : ¬ j = r.archetypes.length),
                if_neg (by rintro ⟨hc1, -⟩; exact hj hc1)]
            exact hb0
          · rw [hback0, h2.1]
          · rw [hA_sig]
            exact hsig0
    · obtain ⟨b0, hb0, hback0, hsig0⟩ := hwf2 i a k j ha hedge
      obtain ⟨hjlt, -⟩ := List.getElem?_eq_some.mp hb0
      by_cases hj : j = src
      · subst hj
        obtain rfl : s = b0 := by
          rw [hs] at hb0
          exact Option.some.inj hb0
        have hk : k ≠ c := fun hkc => by
          rw [hkc, hn] at hback0
          exact Option.noConfusion hback0
        refine ⟨A, ?_, ?_, ?_⟩
        · rw [hget j, if_neg (by omega : ¬ j = r.archetypes.length),
              if_pos ⟨rfl, hlt⟩]
        · rw [hA_next k, if_neg hk]
          exact hback0
        · rw [hA_sig]
          exact hsig0
      · refine ⟨b0, ?_, ?_, ?_⟩
        · rw [hget j, if_neg (by omega : ¬ j = r.archetypes.length),
              if_neg (by rintro ⟨hc1, -⟩; exact hj hc1)]
          exact hb0
        · exact hback0
        · exact hsig0

theorem reaches_wf {r : ArchetypeRegister} (h : ArchetypeRegisterReaches r) :
    r.wf := by
  induction h with
  | base =>
    constructor
    · intro i a ha
      cases i with
      | zero =>
        have ha2 : ({ id := 0, signature := [] } : Archetype) = a := by
          simpa [ArchetypeRegister.init] using ha
        subst ha2
        exact ⟨rfl, List.sorted_nil⟩
      | succ m => simp [ArchetypeRegister.init] at ha
    · intro i a k j ha hedge
      cases i with
      | zero =>
        have ha2 : ({ id := 0, signature := [] } : Archetype) = a := by
          simpa [ArchetypeRegister.init] using ha
        subst ha2
        simp [Archetype.next_archetype, lookupA] at hedge
      | succ m => simp [ArchetypeRegister.init] at ha
  | step r src c dest rq hr hext ih =>
    unfold ArchetypeRegister.extend_archetype at hext
    split at hext
    · exact Option.noConfusion hext
    · rename_i s hs
      split at hext
      · rename_i d hn
        rw [Option.some.injEq, Prod.mk.injEq] at hext
        obtain ⟨-, heq2⟩ := hext
        rw [← heq2]
        exact ih
      · rename_i hn
        rw [Option.some.injEq, Prod.mk.injEq] at hext
        obtain ⟨-, heq2⟩ := hext
        rw [← heq2]
        refine wf_extend_create ih hs hn rfl rfl rfl (fun k => ?_)
        rw [next_archetype_add_edge]
        by_cases hk : k = c
        · rw [if_pos hk, if_pos hk]
        · rw [if_neg hk, if_neg hk]
          rfl

/-- C7, confirmed: in every register state reachable by extend calls, the
edge relation is symmetric — whenever archetype `a` stored at index `i` has
an edge for component `c` pointing to `j`, the archetype stored at `j` has an
edge for `c` pointing back to `i`. -/
theorem claim7_edge_symmetry (r : ArchetypeRegister) (h : ArchetypeRegisterReaches r)
    (i j c : Nat) (a : Archetype) (ha : r.archetypes[i]? = some a)
    (hij : a.next_archetype c = some j) :
    ∃ b, r.archetypes[j]? = some b ∧ b.next_archetype c = some i := by
  obtain ⟨b, hb, hback, -⟩ := (reaches_wf h).2 i a c j ha hij
  exact ⟨b, hb, hback⟩

/-- Concrete register for the C7 witness: one extend call from the unit
archetype with component 5. -/
def c7_register : ArchetypeRegister :=
  match ArchetypeRegister.init.extend_archetype 0 5 with
  | some p => p.2
  | none => ArchetypeRegister.init

/-- C7, witness: symmetry applied to the edge from archetype 1 back over
component 5 in the register with one extend call. -/
theorem claim7_edge_symmetry_witness :
    ∃ b, c7_register.archetypes[0]? = some b ∧ b.next_archetype 5 = some 1 :=
  claim7_edge_symmetry c7_register
    (ArchetypeRegisterReaches.step ArchetypeRegister.init 0 5 1 c7_register
      ArchetypeRegisterReaches.base (by decide))
    1 0 5
    { id := 1, signature := [5], columns := [[]], entity_ids := [], edges := [(5, 0)] }
    (by decide) (by decide)

theorem walk_from_append (r : ArchetypeRegister) (cur : Nat) (s : List Nat) (c : Nat) :
    r.walk_from cur (s ++ [c]) =
      (r.walk_from cur s).bind
        (fun t => r.archetypes[t]?.bind (fun a => a.next_archetype c)) := by
  induction s generalizing cur with
  | nil =>
    cases h : r.archetypes[cur]?.bind (fun a => a.next_archetype c) with
    | none => simp [ArchetypeRegister.walk_from, h]
    | some nxt => simp [ArchetypeRegister.walk_from, h]
  | cons x xs ih =>
    simp only [List.cons_append, ArchetypeRegister.walk_from]
    cases h : r.archetypes[cur]?.bind (fun a => a.next_archetype x) with
    | none => simp [h]
    | some nxt => simp [h, ih nxt]

theorem walk_from_congr {r1 r2 : ArchetypeRegister} {s : List Nat}
    (hagree : ∀ (i k : Nat), k ∈ s →
      r2.archetypes[i]?.bind (fun a => a.next_archetype k) =
        r1.archetypes[i]?.bind (fun a => a.next_archetype k)) (cur : Nat) :
    r2.walk_from cur s = r1.walk_from cur s := by
  induction s generalizing cur with
  | nil => rfl
  | cons x xs ih =>
    simp only [ArchetypeRegister.walk_from]
    rw [hagree cur x (List.mem_cons_self x xs)]
    cases h : r1.archetypes[cur]?.bind (fun a => a.next_archetype x) with
    | none => simp [h]
    | some nxt =>
      simp [h, ih (fun i k hk => hagree i k (List.mem_cons_of_mem x hk)) nxt]

theorem get_append_at_set_length (l : List Archetype) (src : Nat) (s b : Archetype) :
    ((l.set src s) ++ [b])[l.length]? = some b := by
  rw [get?_set_append, if_pos rfl]

theorem lookup_after_create {r : ArchetypeRegister} {src c : Nat} {srcA A B : Archetype}
    (hsrc : r.archetypes[src]? = some srcA)
    (hfound : r.walk_from 0 srcA.signature = some src)
    (hlt : ∀ x ∈ srcA.signature, x < c)
    (hA : A = srcA.add_edge c r.archetypes.length)
    (hB_sig : B.signature = xor_signature srcA.signature c)
    (hB_next : ∀ k, B.next_archetype k = if k = c then some src else none) :
    (ArchetypeRegister.mk ((r.archetypes.set src A) ++ [B])).walk_from 0 B.signature =
      some r.archetypes.length := by
  obtain ⟨hslt, -⟩ := List.getElem?_eq_some.mp hsrc
  have hgets : ∀ i,
      (ArchetypeRegister.mk ((r.archetypes.set src A) ++ [B])).archetypes[i]? =
        if i = r.archetypes.length then some B
        else if i = src ∧ src < r.archetypes.length then some A
        else r.archetypes[i]? := fun i => get?_set_append _ _ _ _ i
  have hagree : ∀ (i k : Nat), k ∈ srcA.signature →
      (ArchetypeRegister.mk ((r.archetypes.set src A) ++ [B])).archetypes[i]?.bind
          (fun a => a.next_archetype k) =
        r.archetypes[i]?.bind (fun a => a.next_archetype k) := by
    intro i k hk
    have hkc : k ≠ c := fun hkc => absurd (hlt k hk) (by simp [hkc])
    rw [hgets i]
    by_cases h1 : i = r.archetypes.length
    · rw [if_pos h1, h1, List.getElem?_eq_none (le_refl _)]
      simp [hB_next k, hkc]
    · rw [if_neg h1]
      by_cases h2 : i = src ∧ src < r.archetypes.length
      · rw [if_pos h2, h2.1, hsrc]
        simp [hA, next_archetype_add_edge, hkc]
      · rw [if_neg h2]
  rw [hB_sig, xor_signature_append_of_forall_lt hlt, walk_from_append,
      walk_from_congr hagree 0, hfound]
  simp only [Option.some_bind]
  rw [hgets src, if_neg (by omega : ¬ src = r.archetypes.length), if_pos ⟨rfl, hslt⟩]
  simp [hA, next_archetype_add_edge]

/-- C2, amended theorem: after `extend(src, c)` returns archetype `dest`,
the signature lookup finds `dest` provided the walk already finds `src` by
its own signature and `c` is greater than every component of `src`'s
signature (so that the new signature extends the walk path in increasing
order). The unrestricted claim is refuted by
the counterexample: lookup only follows edges in signature order from the
unit archetype, which need not reach every archetype ever created. -/
theorem claim2_lookup_extend_amended (r : ArchetypeRegister) (src c : Nat)
    (srcA : Archetype) (dest : Nat) (r2 : ArchetypeRegister)
    (hreach : ArchetypeRegisterReaches r)
    (hsrc : r.archetypes[src]? = some srcA)
    (hfound : r.archetype_id_from_signature srcA.signature = some src)
    (hlt : ∀ x ∈ srcA.signature, x < c)
    (hext : r.extend_archetype src c = some (dest, r2)) :
    ∃ destA : Archetype, r2.archetypes[dest]? = some destA ∧
      r2.archetype_id_from_signature destA.signature = some dest := by
  unfold ArchetypeRegister.archetype_id_from_signature at hfound
  unfold ArchetypeRegister.extend_archetype at hext
  split at hext
  · exact Option.noConfusion hext
  · rename_i s hs
    obtain rfl : srcA = s := by
      rw [hsrc] at hs
      exact Option.some.inj hs
    split at hext
    · rename_i d hn
      rw [Option.some.injEq, Prod.mk.injEq] at hext
      obtain ⟨hd, heq2⟩ := hext
      subst heq2
      subst hd
      obtain ⟨b, hb, hback, hbsig⟩ := (reaches_wf hreach).2 src srcA c _ hsrc hn
      refine ⟨b, hb, ?_⟩
      unfold ArchetypeRegister.archetype_id_from_signature
      rw [hbsig, xor_signature_append_of_forall_lt hlt, walk_from_append, hfound]
      simp only [Option.some_bind]
      rw [hsrc]
      simp only [Option.some_bind]
      exact hn
    · rename_i hn
      rw [Option.some.injEq, Prod.mk.injEq] at hext
      obtain ⟨hd, heq2⟩ := hext
      subst heq2
      subst hd
      refine ⟨_, get_append_at_set_length _ _ _ _, ?_⟩
      unfold ArchetypeRegister.archetype_id_from_signature
      refine lookup_after_create hsrc hfound hlt rfl rfl (fun k => ?_)
      rw [next_archetype_add_edge]
      by_cases hk : k = c
      · rw [if_pos hk, if_pos hk]
      · rw [if_neg hk, if_neg hk]
        rfl

/-- Concrete register for the C2 witness: extend the unit archetype by 5,
then extend the result by the larger component 7. -/
def c2_amended_register : ArchetypeRegister :=
  match c7_register.extend_archetype 1 7 with
  | some p => p.2
  | none => ArchetypeRegister.init

/-- C2, witness for the amended theorem: extending archetype 1 (signature
`[5]`, itself found by lookup) with the larger component 7 yields archetype
2, and the signature lookup finds it. -/
theorem claim2_lookup_extend_amended_witness :
    ∃ destA : Archetype, c2_amended_register.archetypes[2]? = some destA ∧
      c2_amended_register.archetype_id_from_signature destA.signature = some 2 :=
  claim2_lookup_extend_amended c7_register 1 7
    { id := 1, signature := [5], columns := [[]], entity_ids := [], edges := [(5, 0)] }
    2 c2_amended_register
    (ArchetypeRegisterReaches.step ArchetypeRegister.init 0 5 1 c7_register
      ArchetypeRegisterReaches.base (by decide))
    (by decide) (by decide) (by decide) (by decide)

theorem try_component_id_after (r : ComponentsRegister) (t : Nat) :
    (r.component_id t).2.try_component_id t = some (r.component_id t).1 := by
  unfold ComponentsRegister.component_id
  cases hl : lookupA r.ids t with
  | some i => simp [ComponentsRegister.try_component_id, hl]
  | none =>
    simp [ComponentsRegister.try_component_id, ComponentsRegister.register_component,
      lookupA_append_of_none hl, lookupA]

theorem patch_infos_length {infos infos2 : List EntityInfo} {l : List Nat}
    (h : patch_infos infos l = some infos2) : infos2.length = infos.length := by
  induction l generalizing infos with
  | nil =>
    simp [patch_infos] at h
    rw [← h]
  | cons u rest ih =>
    unfold patch_infos at h
    split at h
    · exact Option.noConfusion h
    · split at h
      · exact Option.noConfusion h
      · rw [ih h, List.length_set]

theorem listPosition_mem_of_eq {l : List Nat} {cid i : Nat}
    (h : listPosition (fun c => c = cid) l = some i) : cid ∈ l := by
  obtain ⟨x, hx, hpx⟩ := listPosition_eq_some_exists h
  simp at hpx
  rwa [← hpx]

theorem register_component_columns_preserve {newA : Nat} {sig : List Nat}
    {j : Nat} :
    ∀ {ca ca2 : List (List (Nat × Nat))} {i0 : Nat} {m : List (Nat × Nat)},
    ca[j]? = some m → (lookupA m newA).isSome = true →
    register_component_columns ca sig newA i0 = some ca2 →
    ∃ m2, ca2[j]? = some m2 ∧ (lookupA m2 newA).isSome = true := by
  induction sig with
  | nil =>
    intro ca ca2 i0 m hj hm h
    simp [register_component_columns] at h
    exact ⟨m, h ▸ hj, hm⟩
  | cons comp rest ih =>
    intro ca ca2 i0 m hj hm h
    unfold register_component_columns at h
    split at h
    · exact Option.noConfusion h
    · rename_i m0 hcomp
      obtain ⟨hclt, -⟩ := List.getElem?_eq_some.mp hcomp
      by_cases hjc : comp = j
      · subst hjc
        have hset : (ca.set comp (insertA m0 newA i0))[comp]? = some (insertA m0 newA i0) := by
          rw [List.getElem?_set, if_pos rfl, if_pos hclt]
        have hins : (lookupA (insertA m0 newA i0) newA).isSome = true := by
          rw [lookupA_insertA_self]
          rfl
        exact ih hset hins h
      · have hset : (ca.set comp (insertA m0 newA i0))[j]? = some m := by
          rw [List.getElem?_set, if_neg hjc]
          exact hj
        exact ih hset hm h

theorem register_component_columns_mem {newA : Nat} {sig : List Nat} {cid : Nat} :
    ∀ {ca ca2 : List (List (Nat × Nat))} {i0 : Nat},
    cid ∈ sig →
    register_component_columns ca sig newA i0 = some ca2 →
    ∃ m2, ca2[cid]? = some m2 ∧ (lookupA m2 newA).isSome = true := by
  induction sig with
  | nil =>
    intro ca ca2 i0 hmem
    simp at hmem
  | cons comp rest ih =>
    intro ca ca2 i0 hmem h
    unfold register_component_columns at h
    split at h
    · exact Option.noConfusion h
    · rename_i m0 hcomp
      obtain ⟨hclt, -⟩ := List.getElem?_eq_some.mp hcomp
      rcases List.mem_cons.mp hmem with hceq | hcrest
      · subst hceq
        have hset : (ca.set cid (insertA m0 newA i0))[cid]? = some (insertA m0 newA i0) := by
          rw [List.getElem?_set, if_pos rfl, if_pos hclt]
        have hins : (lookupA (insertA m0 newA i0) newA).isSome = true := by
          rw [lookupA_insertA_self]
          rfl
        exact register_component_columns_preserve hset hins h
      · exact ih hcrest h

theorem push_row_signature (a : Archetype) (e : Nat) (row : List BoxAny) :
    (a.push_row e row).2.signature = a.signature := rfl

theorem remove_row_signature {a : Archetype} {i : Nat}
    {rem : List BoxAny × List Nat × Archetype}
    (h : a.remove_row i = some rem) : rem.2.2.signature = a.signature := by
  unfold Archetype.remove_row at h
  split at h
  · obtain rfl := Option.some.inj h
    rfl
  · exact Option.noConfusion h

theorem bind_component_core_ok {h g : EntityHandler} {t entity v : Nat}
    (hok : h.bind_component_core t entity v = some g) :
    g.has_component t entity = some true := by
  unfold EntityHandler.bind_component_core at hok
  rw [Option.bind_eq_some] at hok
  obtain ⟨entity_info, hinfo, hok⟩ := hok
  try dsimp only at hok
  rw [Option.bind_eq_some] at hok
  obtain ⟨exr, hext, hok⟩ := hok
  try dsimp only at hok
  rw [Option.bind_eq_some] at hok
  obtain ⟨component_column, hcol, hok⟩ := hok
  rw [Option.bind_eq_some] at hok
  obtain ⟨src_arch, hsrc, hok⟩ := hok
  rw [Option.bind_eq_some] at hok
  obtain ⟨rem, hrem, hok⟩ := hok
  try dsimp only at hok
  split at hok
  · rw [Option.bind_eq_some] at hok
    obtain ⟨infos, hpatch, hok⟩ := hok
    try dsimp only at hok
    rw [Option.bind_eq_some] at hok
    obtain ⟨dest, hdest, hok⟩ := hok
    try dsimp only at hok
    rw [Option.map_eq_some'] at hok
    obtain ⟨ca2, hca, hg⟩ := hok
    subst hg
    -- membership of the component id in the destination signature
    rw [Option.bind_eq_some] at hcol
    obtain ⟨a0, ha0, hpos⟩ := hcol
    have hcid_mem : (h.components.component_id t).1 ∈ a0.signature :=
      listPosition_mem_of_eq hpos
    have hdest_sig : dest.signature = a0.signature := by
      rw [List.getElem?_set] at hdest
      split at hdest
      · rename_i heq
        split at hdest
        · obtain rfl := Option.some.inj hdest
          rw [remove_row_signature hrem]
          rw [heq] at hsrc
          rw [hsrc] at ha0
          rw [Option.some.inj ha0]
        · exact Option.noConfusion hdest
      · rw [hdest] at ha0
        rw [Option.some.inj ha0]
    have hmem2 : (h.components.component_id t).1 ∈
        ((dest.push_row entity
          (rem.1.insertIdx component_column ⟨t, v⟩)).2).signature := by
      rw [push_row_signature, hdest_sig]
      exact hcid_mem
    obtain ⟨m2, hm2, hsome⟩ := register_component_columns_mem hmem2 hca
    -- evaluate has_component on the final state
    have hlen0 : entity < h.entity_infos.length :=
      (List.getElem?_eq_some.mp hinfo).1
    have hlen2 : entity < infos.length := by
      rw [patch_infos_length hpatch]
      exact hlen0
    unfold EntityHandler.has_component
    simp only [List.getElem?_set_self hlen2, try_component_id_after, hm2, hsome]
  · exact Option.noConfusion hok

/-- Partial contract of `bind_component` (supporting lemma): it signals the
already-bound condition exactly when `has_component` observes the component
at the moment of the call, the handler state it reports at the signal is the
untouched input state (the panic precedes every mutation), it never signals
already-bound when `has_component` observes false, a fatal record lookup is
fatal rather than already-bound, and a completed call leaves the entity
carrying the component. It deliberately does not assert that the bind always
completes when the component is absent: that part of the contract is false
on the code (see the evaluation below). -/
theorem bind_component_signal_exact (h : EntityHandler) (t entity v : Nat) :
    (h.has_component t entity = some true →
      h.bind_component t entity v = BindResult.alreadyBound h) ∧
    (h.has_component t entity = some false →
      ∀ g, h.bind_component t entity v ≠ BindResult.alreadyBound g) ∧
    (h.has_component t entity = none →
      h.bind_component t entity v = BindResult.fatal) ∧
    (∀ g, h.bind_component t entity v = BindResult.ok g →
      g.has_component t entity = some true) := by
  refine ⟨?_, ?_, ?_, ?_⟩
  · intro h1
    simp only [EntityHandler.bind_component, h1]
  · intro h1 g hbind
    simp only [EntityHandler.bind_component, h1] at hbind
    cases hcore : h.bind_component_core t entity v with
    | some g2 =>
      simp only [hcore] at hbind
      exact BindResult.noConfusion hbind
    | none =>
      simp only [hcore] at hbind
      exact BindResult.noConfusion hbind
  · intro h1
    simp only [EntityHandler.bind_component, h1]
  · intro g hbind
    simp only [EntityHandler.bind_component] at hbind
    cases hhas : h.has_component t entity with
    | none =>
      simp only [hhas] at hbind
      exact BindResult.noConfusion hbind
    | some b =>
      cases b with
      | true =>
        simp only [hhas] at hbind
        exact BindResult.noConfusion hbind
      | false =>
        simp only [hhas] at hbind
        cases hcore : h.bind_component_core t entity v with
        | some g2 =>
          simp only [hcore] at hbind
          obtain rfl : g2 = g := by
            injection hbind
          exact bind_component_core_ok hcore
        | none =>
          simp only [hcore] at hbind
          exact BindResult.noConfusion hbind

/-- Concrete handler exercising `bind_component_signal_exact`: one entity
with component token 10 already bound; re-binding signals already-bound with
the handler state untouched. -/
theorem bind_component_signal_exact_example :
    ((run_ops EntityHandler.init [.spawn, .bind 10 0 7]).getD EntityHandler.init).bind_component
        10 0 9 =
      BindResult.alreadyBound
        ((run_ops EntityHandler.init [.spawn, .bind 10 0 7]).getD EntityHandler.init) :=
  (bind_component_signal_exact _ 10 0 9).1 (by decide)

/-- C5 (code bug), evaluation at the failing input: after
`spawn (id 0); spawn (id 1); delete 0`, entity 1 is live and carries no
component, yet `bind_component` on it is fatal (its record lookup indexes out
of bounds, because `delete_entity` shifted the id-indexed record vector)
instead of performing the bind — the claim requires the bind to be performed
without signaling whenever the entity does not carry the component. Even
where the duplicate check itself still passes (`has_component` on id 0
observes `false` through the shifted record), the bind is fatal rather than
performed: `remove_row` is called with the stale row index 1 on an archetype
that has a single row. The already-bound signal itself is exact and
mutation-free, as `bind_component_signal_exact` proves. -/
theorem claim5_bind_not_performed_after_delete :
    (run_ops EntityHandler.init [.spawn, .spawn, .delete 0]).map
        (fun h => h.bind_component 10 1 5) = some BindResult.fatal ∧
    (run_ops EntityHandler.init [.spawn, .spawn, .delete 0]).map
        (fun h => h.has_component 10 0) = some (some false) ∧
    (run_ops EntityHandler.init [.spawn, .spawn, .delete 0]).map
        (fun h => h.bind_component 10 0 5) = some BindResult.fatal := by
  decide
